import Mathlib

/-!
Verification of the `collision_detection::World` container
(`src/collision_detection/include/moveit/collision_detection/world.h`).

The repository ships only the header: class declarations, member doc
comments and two inline bodies (`getObjects`, `getObjectsCount`).  The
bodies of the remaining member functions live in `world.cpp`, which is not
part of the source tree; those operations are modelled from the
specification (`spec.md`), as recorded in each definition's doc comment.

Modelling choices:
* A shape reference (`shapes::ShapeConstPtr`) is an opaque identity token:
  move/remove compare pointers, never geometric content, so a `Nat` token
  stands for the pointer.  A pose (`Eigen::Affine3d`) is likewise opaque.
* `boost::shared_ptr<Object>` aliasing is made explicit with a heap of
  reference-counted cells; a `World` holds references (`Ref = Nat`) into
  the heap, exactly as `std::map<std::string, ObjectPtr> objects_` holds
  shared pointers.  Copy-on-write (`ensureUnique`) consults the use count.
* `std::map` keyed by `std::string` is an association list kept strictly
  sorted by key (lexicographic `String` order matches `std::string`'s
  `operator<`).
* Observer callbacks are opaque tokens; a mutation returns the list of
  `notify` calls it makes (object id, action bitmask), and `dispatch`
  expands them to per-observer invocations.
-/

namespace CollisionDetection

/-- Opaque per-shape identity token (stands for `shapes::ShapeConstPtr`;
the header states shape equality "is verified by comparing pointers"). -/
abbrev Shape := Nat

/-- Opaque rigid transform (stands for `Eigen::Affine3d`). -/
abbrev Pose := Nat

/-- `World::Object` (world.h lines 72-86): an id, an array of shapes and a
parallel array of shape poses. -/
structure Object where
  id_ : String
  shapes_ : List Shape
  shape_poses_ : List Pose
deriving DecidableEq, Repr

/-- A reference into the heap: stands for the address held by a
`boost::shared_ptr<Object>`. -/
abbrev Ref := Nat

/-- A heap cell: the pointee of a `shared_ptr` together with its use
count. -/
structure Cell where
  obj : Object
  count : Nat
deriving DecidableEq, Repr

/-- The shared-pointer heap. -/
abbrev Heap := List Cell

/-- Dereference: the `Object` a reference points to, if the reference is
live. -/
def Heap.deref (h : Heap) (r : Ref) : Option Object :=
  (h[r]?).map Cell.obj

/-- `shared_ptr::use_count` of a reference (0 when dead). -/
def Heap.useCount (h : Heap) (r : Ref) : Nat :=
  ((h[r]?).map Cell.count).getD 0

/-- Allocate a fresh cell with use count 1 (`new Object(...)` wrapped in a
fresh `shared_ptr`); returns the extended heap and the fresh reference. -/
def Heap.alloc (h : Heap) (o : Object) : Heap × Ref :=
  (h ++ [⟨o, 1⟩], h.length)

/-- Overwrite the pointee of a live reference (in-place mutation through a
`shared_ptr`); the use count is untouched. -/
def Heap.setObj (h : Heap) (r : Ref) (o : Object) : Heap :=
  match h[r]? with
  | some c => h.set r ⟨o, c.count⟩
  | none => h

/-- Increment the use count of a reference (one more `shared_ptr` copy). -/
def Heap.incr (h : Heap) (r : Ref) : Heap :=
  match h[r]? with
  | some c => h.set r ⟨c.obj, c.count + 1⟩
  | none => h

/-- Decrement the use count of a reference (one `shared_ptr` released). -/
def Heap.decr (h : Heap) (r : Ref) : Heap :=
  match h[r]? with
  | some c => h.set r ⟨c.obj, c.count - 1⟩
  | none => h

/-- Increment the use counts of a list of references. -/
def Heap.incrAll (h : Heap) (rs : List Ref) : Heap :=
  rs.foldl Heap.incr h

/-- Decrement the use counts of a list of references. -/
def Heap.decrAll (h : Heap) (rs : List Ref) : Heap :=
  rs.foldl Heap.decr h

/-- `World::ActionBits` (world.h lines 154-162). -/
def UNINITIALIZED : Nat := 0
def CREATE : Nat := 1
def DESTROY : Nat := 2
def MOVE_SHAPE : Nat := 4
def ADD_SHAPE : Nat := 8
def REMOVE_SHAPE : Nat := 16

/-- One `notify` call: the id of the object the event is about and the
action bitmask passed to every registered observer.  (Which object
reference the callback receives on DESTROY is left open by the spec,
section 9; the id is determined in every case.) -/
abbrev Notif := String × Nat

/-- An opaque observer token (stands for `ObserverHandle`). -/
abbrev ObsTok := Nat

/-- One observer-callback invocation: (observer token, object id, action). -/
abbrev Invocation := ObsTok × String × Nat

/-- `collision_detection::World` (world.h lines 53-236): the ordered map
`objects_` from id to a shared `Object`, plus the registered observers. -/
structure World where
  objects_ : List (String × Ref)
  observers_ : List ObsTok
deriving DecidableEq, Repr

/-- The empty world (`World::World()`). -/
def World.empty : World := ⟨[], []⟩

/-- Key lookup in `objects_` (`std::map::find`). -/
def World.lookupRef (w : World) (id : String) : Option Ref :=
  (w.objects_.find? (fun p => p.1 == id)).map Prod.snd

/-- `World::getObjects` (world.h lines 94-97, inline in src): the full
id-to-record mapping, in map iteration order. -/
def getObjects (w : World) : List (String × Ref) :=
  w.objects_

/-- `World::getObjectsCount` (world.h lines 100-103, inline in src). -/
def getObjectsCount (w : World) : Nat :=
  w.objects_.length

/-- Modelled from the spec: body of `World::getObjectIds` is missing from
src/; section 4.1 gives "sequence of all currently-present ids (order
unspecified beyond consistent with getObjects())", so it reads the keys of
the ordered map in iteration order. -/
def getObjectIds (w : World) : List String :=
  w.objects_.map Prod.fst

/-- Modelled from the spec: body of `World::hasObject` is missing from
src/; section 4.1: boolean presence check. -/
def hasObject (w : World) (id : String) : Bool :=
  (w.lookupRef id).isSome

/-- Modelled from the spec: body of `World::getObject` is missing from
src/; section 4.1: reference to the record, or an explicit "not found"
result if absent. -/
def getObject (h : Heap) (w : World) (id : String) : Option Object :=
  (w.lookupRef id).bind h.deref

/-- Insert a binding into the key-sorted association list, the way
`std::map` keeps its entries ordered by `std::string` comparison. -/
def insertSorted (id : String) (r : Ref) : List (String × Ref) → List (String × Ref)
  | [] => [(id, r)]
  | e :: rest =>
    if id < e.1 then (id, r) :: e :: rest
    else if id = e.1 then (id, r) :: rest
    else e :: insertSorted id r rest

/-- Replace the reference stored under an existing key (writing through
`objects_[id]` after `ensureUnique` swapped the pointer). -/
def updateRef (id : String) (r : Ref) : List (String × Ref) → List (String × Ref)
  | [] => []
  | e :: rest => if e.1 = id then (id, r) :: rest else e :: updateRef id r rest

/-- Erase the binding of a key (`std::map::erase`). -/
def eraseKey (id : String) : List (String × Ref) → List (String × Ref)
  | [] => []
  | e :: rest => if e.1 = id then rest else e :: eraseKey id rest

/-- Modelled from the spec: body of `World::ensureUnique` is missing from
src/; its header comment (world.h lines 211-214) says: make sure the
object is known only to this instance, cloning it if it is known outside.
A reference with use count above 1 is cloned into a fresh cell and the old
reference released; a uniquely-owned reference is kept. -/
def ensureUnique (h : Heap) (r : Ref) : Heap × Ref :=
  if 1 < h.useCount r then
    match h.deref r with
    | some o => ((h.alloc o).1.decr r, (h.alloc o).2)
    | none => (h, r)
  else (h, r)

/-- Modelled from the spec: body of `World::addToObjectInternal` is
missing from src/; world.h lines 216-219 call it "Add a shape with no
checking", and spec section 4.2 requires the shape and its pose appended
at the same index. -/
def addToObjectInternal (o : Object) (s : Shape) (p : Pose) : Object :=
  { o with shapes_ := o.shapes_ ++ [s], shape_poses_ := o.shape_poses_ ++ [p] }

/-- Modelled from the spec: body of the batch `World::addToObject` is
missing from src/; spec section 4.1: precondition `len(shapes) ==
len(poses)` with fail-fast rejection on violation; creates the object if
absent (emits CREATE only) or appends to an existing one (emits ADD_SHAPE
only); performs copy-on-write isolation before mutating; repeated calls to
`addToObjectInternal` add the shapes one by one (world.h lines 111-115).
An empty batch is a no-op, as the invariant of spec section 3 forbids an
entry with zero shapes. -/
def addToObject (h : Heap) (w : World) (id : String) (shapes : List Shape)
    (poses : List Pose) : Heap × World × List Notif :=
  if shapes.length ≠ poses.length then (h, w, [])
  else if shapes.isEmpty then (h, w, [])
  else
    match w.lookupRef id with
    | some r =>
      let h1 := (ensureUnique h r).1
      let r' := (ensureUnique h r).2
      match h1.deref r' with
      | some o =>
        let o' := (shapes.zip poses).foldl (fun a sp => addToObjectInternal a sp.1 sp.2) o
        (h1.setObj r' o', { w with objects_ := updateRef id r' w.objects_ },
          [(id, ADD_SHAPE)])
      | none => (h1, w, [])
    | none =>
      let o := (shapes.zip poses).foldl (fun a sp => addToObjectInternal a sp.1 sp.2)
        (Object.mk id [] [])
      ((h.alloc o).1,
        { w with objects_ := insertSorted id (h.alloc o).2 w.objects_ },
        [(id, CREATE)])

/-- Modelled from the spec: body of the single-shape `World::addToObject`
is missing from src/; world.h lines 120-123: if the object exists the
shape is added at the pose, otherwise the object is created; this calls
`addToObjectInternal` (and explicitly does NOT call the batch variant,
world.h lines 114-115); spec section 4.1: identical semantics to the batch
form, routed through the same append primitive. -/
def addToObject1 (h : Heap) (w : World) (id : String) (s : Shape) (p : Pose) :
    Heap × World × List Notif :=
  match w.lookupRef id with
  | some r =>
    let h1 := (ensureUnique h r).1
    let r' := (ensureUnique h r).2
    match h1.deref r' with
    | some o =>
      (h1.setObj r' (addToObjectInternal o s p),
        { w with objects_ := updateRef id r' w.objects_ }, [(id, ADD_SHAPE)])
    | none => (h1, w, [])
  | none =>
    let o := addToObjectInternal (Object.mk id [] []) s p
    ((h.alloc o).1,
      { w with objects_ := insertSorted id (h.alloc o).2 w.objects_ },
      [(id, CREATE)])

/-- Modelled from the spec: body of `World::moveShapeInObject` is missing
from src/; spec section 4.1: finds the shape by identity; on match,
replaces its pose and emits MOVE_SHAPE; returns failure (no notification)
if the object or shape identity is not found; isolates via copy-on-write
before mutating. -/
def moveShapeInObject (h : Heap) (w : World) (id : String) (s : Shape) (p : Pose) :
    Heap × World × Bool × List Notif :=
  match w.lookupRef id with
  | none => (h, w, false, [])
  | some r =>
    match h.deref r with
    | none => (h, w, false, [])
    | some o =>
      match o.shapes_.findIdx? (fun x => x == s) with
      | none => (h, w, false, [])
      | some i =>
        let h1 := (ensureUnique h r).1
        let r' := (ensureUnique h r).2
        match h1.deref r' with
        | none => (h1, w, false, [])
        | some o1 =>
          (h1.setObj r' { o1 with shape_poses_ := o1.shape_poses_.set i p },
            { w with objects_ := updateRef id r' w.objects_ }, true,
            [(id, MOVE_SHAPE)])

/-- Modelled from the spec: body of `World::removeShapeFromObject` is
missing from src/; spec section 4.1: identity-based removal of one
(shape, pose) pair; if it was the object's last shape the whole entry is
deleted and DESTROY is emitted (never REMOVE_SHAPE in that case);
otherwise REMOVE_SHAPE is emitted; returns failure if object or shape
identity not found; the header adds that ownership of the object is
renounced when the entry is deleted (world.h lines 134-139). -/
def removeShapeFromObject (h : Heap) (w : World) (id : String) (s : Shape) :
    Heap × World × Bool × List Notif :=
  match w.lookupRef id with
  | none => (h, w, false, [])
  | some r =>
    match h.deref r with
    | none => (h, w, false, [])
    | some o =>
      match o.shapes_.findIdx? (fun x => x == s) with
      | none => (h, w, false, [])
      | some i =>
        if o.shapes_.length = 1 then
          (h.decr r, { w with objects_ := eraseKey id w.objects_ }, true,
            [(id, DESTROY)])
        else
          let h1 := (ensureUnique h r).1
          let r' := (ensureUnique h r).2
          match h1.deref r' with
          | none => (h1, w, false, [])
          | some o1 =>
            let o2 : Object :=
              { o1 with
                shapes_ := o1.shapes_.eraseIdx i
                shape_poses_ := o1.shape_poses_.eraseIdx i }
            (h1.setObj r' o2,
              { w with objects_ := updateRef id r' w.objects_ }, true,
              [(id, REMOVE_SHAPE)])

/-- Modelled from the spec: body of `World::removeObject` is missing from
src/; spec section 4.1: deletes the entry and emits DESTROY; returns
failure if absent; the shared reference is released (world.h lines
143-146). -/
def removeObject (h : Heap) (w : World) (id : String) :
    Heap × World × Bool × List Notif :=
  match w.lookupRef id with
  | none => (h, w, false, [])
  | some r =>
    (h.decr r, { w with objects_ := eraseKey id w.objects_ }, true,
      [(id, DESTROY)])

/-- Modelled from the spec: body of `World::clearObjects` is missing from
src/; spec section 4.1: removes every object; emits one DESTROY
notification per removed object (never a single bulk event); all shared
references are released (world.h lines 149-152). -/
def clearObjects (h : Heap) (w : World) : Heap × World × List Notif :=
  (h.decrAll (w.objects_.map Prod.snd), { w with objects_ := [] },
    w.objects_.map (fun e => (e.1, DESTROY)))

/-- `World::World(const World&)` (world.h lines 60-63): modelled from the
spec, body missing from src/; spec section 4.1: a new store shares every
current record by reference — the mapping is duplicated, every shared
reference gains a count, no record is copied.  Observers are not part of
the copied state. -/
def World.copy (h : Heap) (w : World) : Heap × World :=
  (h.incrAll (w.objects_.map Prod.snd), { objects_ := w.objects_, observers_ := [] })

/-- Modelled from the spec: body of `World::notifyObserverAllObjects` is
missing from src/; spec section 4.3: for every object currently present,
invokes exactly the one targeted observer's callback with the given
action; does not affect any other observer.  The member is `const`, so the
store itself is unchanged by construction. -/
def notifyObserverAllObjects (w : World) (tok : ObsTok) (action : Nat) :
    List Invocation :=
  w.objects_.map (fun e => (tok, e.1, action))

/-- Modelled from the spec: body of `World::notify` is missing from src/;
spec section 4.3: every committed mutation invokes every registered
callback synchronously.  Expands the `notify` calls a mutation made into
per-observer invocations. -/
def dispatch (obs : List ObsTok) (ns : List Notif) : List Invocation :=
  ns.flatMap (fun n => obs.map (fun t => (t, n.1, n.2)))

/-- Modelled from the spec: body of `World::addObserver` is missing from
src/; spec section 4.3: registration returns a subscription token. -/
def addObserver (w : World) (tok : ObsTok) : World :=
  { w with observers_ := w.observers_ ++ [tok] }

/-- Modelled from the spec: body of `World::removeObserver` is missing
from src/; spec section 4.3: removal is a keyed delete, silently ignoring
unknown keys. -/
def removeObserver (w : World) (tok : ObsTok) : World :=
  { w with observers_ := w.observers_.filter (fun t => t ≠ tok) }

/-- One mutating call on the store, for reasoning about arbitrary
operation sequences. -/
inductive Op where
  | add (id : String) (shapes : List Shape) (poses : List Pose)
  | add1 (id : String) (s : Shape) (p : Pose)
  | move (id : String) (s : Shape) (p : Pose)
  | removeShape (id : String) (s : Shape)
  | remove (id : String)
  | clear
deriving DecidableEq, Repr

/-- Apply one mutating call to a heap/store pair. -/
def step (st : Heap × World) : Op → Heap × World
  | .add id ss ps =>
    ((addToObject st.1 st.2 id ss ps).1, (addToObject st.1 st.2 id ss ps).2.1)
  | .add1 id s p =>
    ((addToObject1 st.1 st.2 id s p).1, (addToObject1 st.1 st.2 id s p).2.1)
  | .move id s p =>
    ((moveShapeInObject st.1 st.2 id s p).1, (moveShapeInObject st.1 st.2 id s p).2.1)
  | .removeShape id s =>
    ((removeShapeFromObject st.1 st.2 id s).1, (removeShapeFromObject st.1 st.2 id s).2.1)
  | .remove id =>
    ((removeObject st.1 st.2 id).1, (removeObject st.1 st.2 id).2.1)
  | .clear =>
    ((clearObjects st.1 st.2).1, (clearObjects st.1 st.2).2.1)

/-- Run a sequence of mutating calls starting from the empty store and an
empty heap. -/
def run (ops : List Op) : Heap × World :=
  ops.foldl step ([], World.empty)

/-! ### Heap lemmas -/

lemma Heap.lt_length_of_deref {h : Heap} {r : Ref} {o : Object}
    (ho : h.deref r = some o) : r < h.length := by
  by_contra hlt
  rw [Heap.deref, List.getElem?_eq_none (le_of_not_lt hlt)] at ho
  simp at ho

lemma Heap.getElem_of_lt {h : Heap} {r : Ref} (hr : r < h.length) :
    h[r]? = some h[r] :=
  List.getElem?_eq_getElem hr

lemma Heap.length_setObj (h : Heap) (r : Ref) (o : Object) :
    (h.setObj r o).length = h.length := by
  unfold Heap.setObj
  cases h[r]? <;> simp

lemma Heap.deref_setObj_self {h : Heap} {r : Ref} (o : Object) (hr : r < h.length) :
    (h.setObj r o).deref r = some o := by
  unfold Heap.setObj
  rw [Heap.getElem_of_lt hr]
  simp [Heap.deref, List.getElem?_set_eq_of_lt _ hr]

lemma Heap.deref_setObj_ne {h : Heap} {r r' : Ref} (o : Object) (hne : r' ≠ r) :
    (h.setObj r o).deref r' = h.deref r' := by
  unfold Heap.setObj
  cases h[r]? with
  | none => rfl
  | some c => simp [Heap.deref, List.getElem?_set_ne (Ne.symm hne)]

lemma Heap.useCount_setObj (h : Heap) (r r' : Ref) (o : Object) :
    (h.setObj r o).useCount r' = h.useCount r' := by
  unfold Heap.setObj
  cases hc : h[r]? with
  | none => rfl
  | some c =>
    by_cases he : r' = r
    · subst he
      have hr : r' < h.length := by
        by_contra hlt
        rw [List.getElem?_eq_none (le_of_not_lt hlt)] at hc
        simp at hc
      simp [Heap.useCount, List.getElem?_set_eq_of_lt _ hr, hc]
    · simp [Heap.useCount, List.getElem?_set_ne (Ne.symm he)]

lemma Heap.length_incr (h : Heap) (r : Ref) : (h.incr r).length = h.length := by
  unfold Heap.incr
  cases h[r]? <;> simp

lemma Heap.length_decr (h : Heap) (r : Ref) : (h.decr r).length = h.length := by
  unfold Heap.decr
  cases h[r]? <;> simp

lemma Heap.deref_incr (h : Heap) (r r' : Ref) : (h.incr r).deref r' = h.deref r' := by
  unfold Heap.incr
  cases hc : h[r]? with
  | none => rfl
  | some c =>
    by_cases he : r' = r
    · subst he
      have hr : r' < h.length := by
        by_contra hlt
        rw [List.getElem?_eq_none (le_of_not_lt hlt)] at hc
        simp at hc
      simp [Heap.deref, List.getElem?_set_eq_of_lt _ hr, hc]
    · simp [Heap.deref, List.getElem?_set_ne (Ne.symm he)]

lemma Heap.deref_decr (h : Heap) (r r' : Ref) : (h.decr r).deref r' = h.deref r' := by
  unfold Heap.decr
  cases hc : h[r]? with
  | none => rfl
  | some c =>
    by_cases he : r' = r
    · subst he
      have hr : r' < h.length := by
        by_contra hlt
        rw [List.getElem?_eq_none (le_of_not_lt hlt)] at hc
        simp at hc
      simp [Heap.deref, List.getElem?_set_eq_of_lt _ hr, hc]
    · simp [Heap.deref, List.getElem?_set_ne (Ne.symm he)]

lemma Heap.useCount_incr_ne (h : Heap) {r r' : Ref} (hne : r' ≠ r) :
    (h.incr r).useCount r' = h.useCount r' := by
  unfold Heap.incr
  cases h[r]? with
  | none => rfl
  | some c => simp [Heap.useCount, List.getElem?_set_ne (Ne.symm hne)]

lemma Heap.useCount_decr_ne (h : Heap) {r r' : Ref} (hne : r' ≠ r) :
    (h.decr r).useCount r' = h.useCount r' := by
  unfold Heap.decr
  cases h[r]? with
  | none => rfl
  | some c => simp [Heap.useCount, List.getElem?_set_ne (Ne.symm hne)]

lemma Heap.useCount_incr_self {h : Heap} {r : Ref} (hr : r < h.length) :
    (h.incr r).useCount r = h.useCount r + 1 := by
  unfold Heap.incr
  rw [Heap.getElem_of_lt hr]
  simp [Heap.useCount, List.getElem?_set_eq_of_lt _ hr, Heap.getElem_of_lt hr]

lemma Heap.useCount_decr_self {h : Heap} {r : Ref} (hr : r < h.length) :
    (h.decr r).useCount r = h.useCount r - 1 := by
  unfold Heap.decr
  rw [Heap.getElem_of_lt hr]
  simp [Heap.useCount, List.getElem?_set_eq_of_lt _ hr, Heap.getElem_of_lt hr]

lemma Heap.length_alloc (h : Heap) (o : Object) :
    (h.alloc o).1.length = h.length + 1 := by
  simp [Heap.alloc]

lemma Heap.deref_alloc_self (h : Heap) (o : Object) :
    (h.alloc o).1.deref (h.alloc o).2 = some o := by
  simp [Heap.alloc, Heap.deref, List.getElem?_concat_length]

lemma Heap.deref_alloc_ne (h : Heap) (o : Object) {r : Ref} (hne : r ≠ h.length) :
    (h.alloc o).1.deref r = h.deref r := by
  rcases lt_or_ge r h.length with hlt | hge
  · simp [Heap.alloc, Heap.deref, List.getElem?_append, hlt]
  · have hgt : h.length < r := lt_of_le_of_ne hge (Ne.symm hne)
    rw [Heap.deref, Heap.deref, Heap.alloc]
    rw [List.getElem?_eq_none (le_of_lt hgt) (l := h)]
    rw [List.getElem?_eq_none (by simp; omega)]

lemma Heap.useCount_alloc_self (h : Heap) (o : Object) :
    (h.alloc o).1.useCount (h.alloc o).2 = 1 := by
  simp [Heap.alloc, Heap.useCount, List.getElem?_concat_length]

lemma Heap.useCount_alloc_ne (h : Heap) (o : Object) {r : Ref} (hne : r ≠ h.length) :
    (h.alloc o).1.useCount r = h.useCount r := by
  rcases lt_or_ge r h.length with hlt | hge
  · simp [Heap.alloc, Heap.useCount, List.getElem?_append, hlt]
  · have hgt : h.length < r := lt_of_le_of_ne hge (Ne.symm hne)
    rw [Heap.useCount, Heap.useCount, Heap.alloc]
    rw [List.getElem?_eq_none (le_of_lt hgt) (l := h)]
    rw [List.getElem?_eq_none (by simp; omega)]

lemma Heap.deref_incrAll (h : Heap) (rs : List Ref) (r' : Ref) :
    (h.incrAll rs).deref r' = h.deref r' := by
  induction rs generalizing h with
  | nil => rfl
  | cons a rest ih => rw [Heap.incrAll, List.foldl_cons, ← Heap.incrAll, ih, Heap.deref_incr]

lemma Heap.deref_decrAll (h : Heap) (rs : List Ref) (r' : Ref) :
    (h.decrAll rs).deref r' = h.deref r' := by
  induction rs generalizing h with
  | nil => rfl
  | cons a rest ih => rw [Heap.decrAll, List.foldl_cons, ← Heap.decrAll, ih, Heap.deref_decr]

lemma Heap.length_incrAll (h : Heap) (rs : List Ref) :
    (h.incrAll rs).length = h.length := by
  induction rs generalizing h with
  | nil => rfl
  | cons a rest ih => rw [Heap.incrAll, List.foldl_cons, ← Heap.incrAll, ih, Heap.length_incr]

lemma Heap.useCount_incrAll_not_mem (h : Heap) {rs : List Ref} {r : Ref} (hr : r ∉ rs) :
    (h.incrAll rs).useCount r = h.useCount r := by
  induction rs generalizing h with
  | nil => rfl
  | cons a rest ih =>
    rw [Heap.incrAll, List.foldl_cons, ← Heap.incrAll]
    rw [ih (h.incr a) (fun hm => hr (List.mem_cons_of_mem a hm))]
    exact Heap.useCount_incr_ne h (fun he => hr (he ▸ List.mem_cons_self a rest))

lemma Heap.useCount_incrAll_mem (h : Heap) {rs : List Ref} {r : Ref}
    (hmem : r ∈ rs) (hnd : rs.Nodup) (hr : r < h.length) :
    (h.incrAll rs).useCount r = h.useCount r + 1 := by
  induction rs generalizing h with
  | nil => exact absurd hmem (List.not_mem_nil r)
  | cons a rest ih =>
    rw [Heap.incrAll, List.foldl_cons, ← Heap.incrAll]
    rcases List.mem_cons.mp hmem with heq | hmem'
    · subst heq
      rw [Heap.useCount_incrAll_not_mem _ (List.nodup_cons.mp hnd).1]
      exact Heap.useCount_incr_self hr
    · have hne : r ≠ a := by
        rintro rfl
        exact (List.nodup_cons.mp hnd).1 hmem'
      rw [ih (h.incr a) hmem' (List.nodup_cons.mp hnd).2
        (by rw [Heap.length_incr]; exact hr)]
      rw [Heap.useCount_incr_ne h hne]

/-! ### Association-list lemmas: the ordered `objects_` map -/

/-- The key-ordering relation of `std::map<std::string, ...>` entries. -/
def keyLt (a b : String × Ref) : Prop := a.1 < b.1

lemma mem_insertSorted {id : String} {r : Ref} {l : List (String × Ref)}
    {e : String × Ref} (he : e ∈ insertSorted id r l) : e = (id, r) ∨ e ∈ l := by
  induction l with
  | nil => simpa [insertSorted] using he
  | cons a rest ih =>
    rw [insertSorted] at he
    split at he
    · rcases List.mem_cons.mp he with h1 | h2
      · exact Or.inl h1
      · exact Or.inr h2
    · split at he
      · rcases List.mem_cons.mp he with h1 | h2
        · exact Or.inl h1
        · exact Or.inr (List.mem_cons_of_mem a h2)
      · rcases List.mem_cons.mp he with h1 | h2
        · exact Or.inr (h1 ▸ List.mem_cons_self a rest)
        · rcases ih h2 with h3 | h4
          · exact Or.inl h3
          · exact Or.inr (List.mem_cons_of_mem a h4)

lemma insertSorted_pairwise {id : String} {r : Ref} {l : List (String × Ref)}
    (hl : l.Pairwise keyLt) : (insertSorted id r l).Pairwise keyLt := by
  induction l with
  | nil => simp [insertSorted, List.pairwise_cons]
  | cons a rest ih =>
    rw [insertSorted]
    rcases List.pairwise_cons.mp hl with ⟨ha, hrest⟩
    split_ifs with hlt heq
    · refine List.pairwise_cons.mpr ⟨?_, hl⟩
      intro e he
      rcases List.mem_cons.mp he with h1 | h2
      · subst h1; exact hlt
      · exact lt_trans hlt (ha e h2)
    · refine List.pairwise_cons.mpr ⟨?_, hrest⟩
      intro e he
      show id < e.1
      rw [heq]
      exact ha e he
    · refine List.pairwise_cons.mpr ⟨?_, ih hrest⟩
      intro e he
      rcases mem_insertSorted he with h1 | h2
      · subst h1
        rcases lt_trichotomy id a.1 with h3 | h3 | h3
        · exact absurd h3 hlt
        · exact absurd h3 heq
        · exact h3
      · exact ha e h2

lemma map_snd_insertSorted {id : String} {r : Ref} {l : List (String × Ref)}
    {x : Ref} (hx : x ∈ (insertSorted id r l).map Prod.snd) :
    x = r ∨ x ∈ l.map Prod.snd := by
  rcases List.mem_map.mp hx with ⟨e, he, hex⟩
  rcases mem_insertSorted he with h1 | h2
  · subst h1; exact Or.inl hex.symm
  · exact Or.inr (List.mem_map.mpr ⟨e, h2, hex⟩)

lemma nodup_snd_insertSorted {id : String} {r : Ref} {l : List (String × Ref)}
    (hn : (l.map Prod.snd).Nodup) (hr : r ∉ l.map Prod.snd) :
    ((insertSorted id r l).map Prod.snd).Nodup := by
  induction l with
  | nil => simp [insertSorted]
  | cons a rest ih =>
    rw [insertSorted]
    split_ifs with hlt heq
    · rw [List.map_cons, List.nodup_cons]
      exact ⟨by simpa using hr, hn⟩
    · rw [List.map_cons, List.nodup_cons]
      refine ⟨?_, (List.nodup_cons.mp hn).2⟩
      intro hmem
      exact hr (List.mem_cons_of_mem _ hmem)
    · rw [List.map_cons, List.nodup_cons]
      rcases List.nodup_cons.mp hn with ⟨han, hrestn⟩
      refine ⟨?_, ih hrestn (fun hm => hr (List.mem_cons_of_mem _ hm))⟩
      intro hmem
      rcases map_snd_insertSorted hmem with h1 | h2
      · exact hr (h1 ▸ List.mem_cons_self _ _)
      · exact han h2

lemma find?_cons_pos {id' : String} {a : String × Ref} (l : List (String × Ref))
    (ha : a.1 = id') : List.find? (fun p => p.1 == id') (a :: l) = some a :=
  List.find?_cons_of_pos _ (by simpa using ha)

lemma find?_cons_neg {id' : String} {a : String × Ref} (l : List (String × Ref))
    (ha : a.1 ≠ id') :
    List.find? (fun p => p.1 == id') (a :: l) =
      List.find? (fun p => p.1 == id') l :=
  List.find?_cons_of_neg _ (by simpa using ha)

lemma find?_insertSorted_self (id : String) (r : Ref) (l : List (String × Ref)) :
    (insertSorted id r l).find? (fun p => p.1 == id) = some (id, r) := by
  induction l with
  | nil => simp [insertSorted]
  | cons a rest ih =>
    rw [insertSorted]
    split_ifs with hlt heq
    · exact List.find?_cons_of_pos _ (by simp)
    · exact List.find?_cons_of_pos _ (by simp)
    · have hne : a.1 ≠ id := by
        rcases lt_trichotomy id a.1 with h3 | h3 | h3
        · exact absurd h3 hlt
        · exact absurd h3 heq
        · exact ne_of_lt h3
      rw [find?_cons_neg _ hne]
      exact ih

lemma find?_insertSorted_ne {id id' : String} (r : Ref) (l : List (String × Ref))
    (hne : id' ≠ id) :
    (insertSorted id r l).find? (fun p => p.1 == id') =
      l.find? (fun p => p.1 == id') := by
  induction l with
  | nil =>
    rw [insertSorted, find?_cons_neg _ (Ne.symm hne)]
  | cons a rest ih =>
    rw [insertSorted]
    split_ifs with hlt heq
    · rw [find?_cons_neg _ (Ne.symm hne)]
    · rw [find?_cons_neg _ (Ne.symm hne), find?_cons_neg _ (heq ▸ Ne.symm hne)]
    · by_cases hai : a.1 = id'
      · rw [find?_cons_pos _ hai, find?_cons_pos _ hai]
      · rw [find?_cons_neg _ hai, find?_cons_neg _ hai]
        exact ih

lemma map_fst_updateRef (id : String) (r : Ref) (l : List (String × Ref)) :
    (updateRef id r l).map Prod.fst = l.map Prod.fst := by
  induction l with
  | nil => rfl
  | cons a rest ih =>
    rw [updateRef]
    split_ifs with he
    · simp [he]
    · simp [ih]

lemma mem_updateRef {id : String} {r : Ref} {l : List (String × Ref)}
    {e : String × Ref} (he : e ∈ updateRef id r l) : e ∈ l ∨ e = (id, r) := by
  induction l with
  | nil => simp [updateRef] at he
  | cons a rest ih =>
    rw [updateRef] at he
    split_ifs at he with ha
    · rcases List.mem_cons.mp he with h1 | h2
      · exact Or.inr h1
      · exact Or.inl (List.mem_cons_of_mem a h2)
    · rcases List.mem_cons.mp he with h1 | h2
      · exact Or.inl (h1 ▸ List.mem_cons_self a rest)
      · rcases ih h2 with h3 | h4
        · exact Or.inl (List.mem_cons_of_mem a h3)
        · exact Or.inr h4

lemma updateRef_pairwise {id : String} {r : Ref} {l : List (String × Ref)}
    (hl : l.Pairwise keyLt) : (updateRef id r l).Pairwise keyLt := by
  have h1 : (l.map Prod.fst).Pairwise (fun a b => a < b) :=
    List.Pairwise.map Prod.fst (fun a b hab => hab) hl
  have h2 : ((updateRef id r l).map Prod.fst).Pairwise (fun a b => a < b) := by
    rw [map_fst_updateRef]; exact h1
  rw [List.pairwise_map] at h2
  exact h2

lemma map_snd_updateRef {id : String} {r : Ref} {l : List (String × Ref)}
    {x : Ref} (hx : x ∈ (updateRef id r l).map Prod.snd) :
    x = r ∨ x ∈ l.map Prod.snd := by
  rcases List.mem_map.mp hx with ⟨e, he, hex⟩
  rcases mem_updateRef he with h1 | h2
  · exact Or.inr (List.mem_map.mpr ⟨e, h1, hex⟩)
  · subst h2; exact Or.inl hex.symm

lemma nodup_snd_updateRef {id : String} {r : Ref} {l : List (String × Ref)}
    (hn : (l.map Prod.snd).Nodup) (hfresh : ∀ e ∈ l, e.2 ≠ r) :
    ((updateRef id r l).map Prod.snd).Nodup := by
  induction l with
  | nil => simp [updateRef]
  | cons a rest ih =>
    rw [updateRef]
    rcases List.nodup_cons.mp hn with ⟨han, hrestn⟩
    split_ifs with ha
    · rw [List.map_cons, List.nodup_cons]
      refine ⟨?_, hrestn⟩
      intro hmem
      rcases List.mem_map.mp hmem with ⟨e, he, hex⟩
      exact hfresh e (List.mem_cons_of_mem a he) hex
    · rw [List.map_cons, List.nodup_cons]
      refine ⟨?_, ih hrestn (fun e he => hfresh e (List.mem_cons_of_mem a he))⟩
      intro hmem
      rcases map_snd_updateRef hmem with h1 | h2
      · exact hfresh a (List.mem_cons_self a rest) h1
      · exact han h2

lemma updateRef_eq_self {id : String} {r : Ref} {l : List (String × Ref)}
    (hl : l.Pairwise keyLt) (he : (id, r) ∈ l) : updateRef id r l = l := by
  induction l with
  | nil => rfl
  | cons a rest ih =>
    rw [updateRef]
    rcases List.pairwise_cons.mp hl with ⟨ha, hrest⟩
    split_ifs with hak
    · rcases List.mem_cons.mp he with h1 | h2
      · rw [← h1]
      · have h4 : a.1 < id := ha _ h2
        rw [hak] at h4
        exact absurd rfl (ne_of_lt h4)
    · rcases List.mem_cons.mp he with h1 | h2
      · exact absurd (congrArg Prod.fst h1).symm hak
      · rw [ih hrest h2]

lemma find?_updateRef_self {id : String} {l : List (String × Ref)} (r : Ref)
    (hid : id ∈ l.map Prod.fst) :
    (updateRef id r l).find? (fun p => p.1 == id) = some (id, r) := by
  induction l with
  | nil => simp at hid
  | cons a rest ih =>
    rw [updateRef]
    split_ifs with ha
    · exact find?_cons_pos _ rfl
    · rw [find?_cons_neg _ ha]
      rcases List.mem_map.mp hid with ⟨e, he, hex⟩
      rcases List.mem_cons.mp he with h1 | h2
      · exact absurd (h1 ▸ hex) ha
      · exact ih (List.mem_map.mpr ⟨e, h2, hex⟩)

lemma find?_updateRef_ne {id id' : String} (r : Ref) (l : List (String × Ref))
    (hne : id' ≠ id) :
    (updateRef id r l).find? (fun p => p.1 == id') =
      l.find? (fun p => p.1 == id') := by
  induction l with
  | nil => rfl
  | cons a rest ih =>
    rw [updateRef]
    split_ifs with ha
    · rw [find?_cons_neg _ (Ne.symm hne), find?_cons_neg _ (ha ▸ Ne.symm hne)]
    · by_cases hai : a.1 = id'
      · rw [find?_cons_pos _ hai, find?_cons_pos _ hai]
      · rw [find?_cons_neg _ hai, find?_cons_neg _ hai]
        exact ih

lemma eraseKey_sublist (id : String) (l : List (String × Ref)) :
    (eraseKey id l).Sublist l := by
  induction l with
  | nil => simp [eraseKey]
  | cons a rest ih =>
    rw [eraseKey]
    split_ifs with ha
    · exact List.Sublist.cons a (List.Sublist.refl rest)
    · exact List.Sublist.cons₂ a ih

lemma mem_eraseKey_key_ne {id : String} {l : List (String × Ref)}
    (hl : l.Pairwise keyLt) {e : String × Ref} (he : e ∈ eraseKey id l) :
    e.1 ≠ id := by
  induction l with
  | nil => simp [eraseKey] at he
  | cons a rest ih =>
    rw [eraseKey] at he
    rcases List.pairwise_cons.mp hl with ⟨ha, hrest⟩
    split_ifs at he with hak
    · have h4 : a.1 < e.1 := ha e he
      rw [hak] at h4
      exact ne_of_gt h4
    · rcases List.mem_cons.mp he with h1 | h2
      · exact h1 ▸ hak
      · exact ih hrest h2

lemma find?_eraseKey_self {id : String} {l : List (String × Ref)}
    (hl : l.Pairwise keyLt) :
    (eraseKey id l).find? (fun p => p.1 == id) = none := by
  rw [List.find?_eq_none]
  intro e he
  simpa using mem_eraseKey_key_ne hl he

lemma find?_eraseKey_ne {id id' : String} (l : List (String × Ref))
    (hne : id' ≠ id) :
    (eraseKey id l).find? (fun p => p.1 == id') =
      l.find? (fun p => p.1 == id') := by
  induction l with
  | nil => rfl
  | cons a rest ih =>
    rw [eraseKey]
    split_ifs with ha
    · rw [find?_cons_neg _ (ha ▸ Ne.symm hne)]
    · by_cases hai : a.1 = id'
      · rw [find?_cons_pos _ hai, find?_cons_pos _ hai]
      · rw [find?_cons_neg _ hai, find?_cons_neg _ hai]
        exact ih

lemma find?_key_of_mem {l : List (String × Ref)} (hl : l.Pairwise keyLt)
    {e : String × Ref} (he : e ∈ l) :
    l.find? (fun p => p.1 == e.1) = some e := by
  induction l with
  | nil => simp at he
  | cons a rest ih =>
    rcases List.pairwise_cons.mp hl with ⟨ha, hrest⟩
    rcases List.mem_cons.mp he with h1 | h2
    · subst h1
      exact List.find?_cons_of_pos _ (by simp)
    · have hne : a.1 ≠ e.1 := ne_of_lt (ha e h2)
      rw [List.find?_cons_of_neg _ (by simpa using hne)]
      exact ih hrest h2

/-! ### `ensureUnique` lemmas -/

lemma ensureUnique_cases {h : Heap} {r : Ref} {o : Object}
    (ho : h.deref r = some o) :
    (¬1 < h.useCount r ∧ ensureUnique h r = (h, r)) ∨
      (1 < h.useCount r ∧ (ensureUnique h r).2 = h.length ∧
        (ensureUnique h r).1 = (h.alloc o).1.decr r) := by
  unfold ensureUnique
  split_ifs with hc
  · right
    rw [ho]
    exact ⟨hc, rfl, rfl⟩
  · exact Or.inl ⟨hc, rfl⟩

lemma ensureUnique_deref_self {h : Heap} {r : Ref} {o : Object}
    (ho : h.deref r = some o) :
    (ensureUnique h r).1.deref (ensureUnique h r).2 = some o := by
  rcases ensureUnique_cases ho with ⟨_, hE⟩ | ⟨_, hE2, hE1⟩
  · rw [hE]; exact ho
  · rw [hE1, hE2, Heap.deref_decr]
    have h2 : (h.alloc o).2 = h.length := rfl
    rw [← h2, Heap.deref_alloc_self]

lemma ensureUnique_deref_lt {h : Heap} (r : Ref) {r' : Ref} (hr' : r' < h.length) :
    (ensureUnique h r).1.deref r' = h.deref r' := by
  unfold ensureUnique
  split_ifs with hc
  · cases ho : h.deref r with
    | none => rfl
    | some o =>
      show ((h.alloc o).1.decr r).deref r' = h.deref r'
      rw [Heap.deref_decr]
      exact Heap.deref_alloc_ne h o (ne_of_lt hr')
  · rfl

lemma ensureUnique_useCount_lt {h : Heap} {r r' : Ref} (hr' : r' < h.length)
    (hne : r' ≠ r) :
    (ensureUnique h r).1.useCount r' = h.useCount r' := by
  unfold ensureUnique
  split_ifs with hc
  · cases ho : h.deref r with
    | none => rfl
    | some o =>
      show ((h.alloc o).1.decr r).useCount r' = h.useCount r'
      rw [Heap.useCount_decr_ne _ hne]
      exact Heap.useCount_alloc_ne h o (ne_of_lt hr')
  · rfl

lemma ensureUnique_length {h : Heap} (r : Ref) :
    h.length ≤ (ensureUnique h r).1.length := by
  unfold ensureUnique
  split_ifs with hc
  · cases ho : h.deref r with
    | none => exact le_refl _
    | some o =>
      show h.length ≤ ((h.alloc o).1.decr r).length
      rw [Heap.length_decr, Heap.length_alloc]
      exact Nat.le_succ _
  · exact le_refl _

/-! ### The store invariant -/

/-- Well-formedness of a heap/store pair: the `objects_` map is strictly
key-sorted (as a `std::map` is), no two entries alias the same record
within one store, and every entry points at a live record with a
non-empty shape list (spec section 3 invariant) and a positive use
count. -/
def Wf (h : Heap) (w : World) : Prop :=
  w.objects_.Pairwise keyLt ∧
  (w.objects_.map Prod.snd).Nodup ∧
  ∀ e ∈ w.objects_, ∃ o, h.deref e.2 = some o ∧ o.shapes_ ≠ [] ∧
    1 ≤ h.useCount e.2

lemma wf_empty : Wf [] World.empty := by
  refine ⟨List.Pairwise.nil, List.nodup_nil, ?_⟩
  intro e he
  simp [World.empty] at he

/-- Preservation of the invariant by the copy-on-write mutation pattern:
`ensureUnique` on a found reference, overwrite the now-private record
with any non-empty record, re-point the map entry at it. -/
lemma wf_cow {h : Heap} {w : World} {id : String} {r : Ref} {o o' : Object}
    (hwf : Wf h w) (hmem : (id, r) ∈ w.objects_)
    (ho : h.deref r = some o) (ho' : o'.shapes_ ≠ []) :
    Wf ((ensureUnique h r).1.setObj (ensureUnique h r).2 o')
      { w with objects_ := updateRef id (ensureUnique h r).2 w.objects_ } := by
  obtain ⟨hpw, hnd, hent⟩ := hwf
  have hrlt : r < h.length := Heap.lt_length_of_deref ho
  rcases ensureUnique_cases ho with ⟨hc, hE⟩ | ⟨hc, hE2, hE1⟩
  · rw [hE, updateRef_eq_self hpw hmem]
    refine ⟨hpw, hnd, ?_⟩
    intro e he
    by_cases her : e.2 = r
    · have he2 : e = (id, r) := List.inj_on_of_nodup_map hnd he hmem her
      refine ⟨o', ?_, ho', ?_⟩
      · rw [her]; exact Heap.deref_setObj_self o' hrlt
      · rw [Heap.useCount_setObj]
        rcases hent e he with ⟨o1, _, _, hcnt⟩
        exact hcnt
    · rcases hent e he with ⟨o1, ho1, hs1, hcnt⟩
      refine ⟨o1, ?_, hs1, ?_⟩
      · rw [Heap.deref_setObj_ne o' her]; exact ho1
      · rw [Heap.useCount_setObj]; exact hcnt
  · have hfresh : ∀ e ∈ w.objects_, e.2 ≠ h.length := by
      intro e he
      rcases hent e he with ⟨o1, ho1, _, _⟩
      exact ne_of_lt (Heap.lt_length_of_deref ho1)
    have hlen1 : (ensureUnique h r).1.length = h.length + 1 := by
      rw [hE1, Heap.length_decr, Heap.length_alloc]
    refine ⟨updateRef_pairwise hpw, ?_, ?_⟩
    · show ((updateRef id (ensureUnique h r).2 w.objects_).map Prod.snd).Nodup
      rw [hE2]
      exact nodup_snd_updateRef hnd hfresh
    · intro e he
      rcases mem_updateRef he with hel | heq
      · rcases hent e hel with ⟨o1, ho1, hs1, hcnt⟩
        have helt : e.2 < h.length := Heap.lt_length_of_deref ho1
        have hnef : e.2 ≠ (ensureUnique h r).2 := by
          rw [hE2]; exact ne_of_lt helt
        refine ⟨o1, ?_, hs1, ?_⟩
        · rw [Heap.deref_setObj_ne o' hnef]
          rw [ensureUnique_deref_lt r helt]
          exact ho1
        · rw [Heap.useCount_setObj]
          by_cases her : e.2 = r
          · have hlt2 : r < (h.alloc o).1.length := by
              rw [Heap.length_alloc]
              exact Nat.lt_succ_of_lt hrlt
            rw [hE1, her, Heap.useCount_decr_self hlt2,
              Heap.useCount_alloc_ne h o (ne_of_lt hrlt)]
            omega
          · rw [ensureUnique_useCount_lt helt her]
            exact hcnt
      · subst heq
        refine ⟨o', ?_, ho', ?_⟩
        · show ((ensureUnique h r).1.setObj (ensureUnique h r).2 o').deref
            (ensureUnique h r).2 = some o'
          have hlt3 : (ensureUnique h r).2 < (ensureUnique h r).1.length := by
            rw [hlen1, hE2]
            exact Nat.lt_succ_self _
          exact Heap.deref_setObj_self o' hlt3
        · show 1 ≤ ((ensureUnique h r).1.setObj (ensureUnique h r).2 o').useCount
            (ensureUnique h r).2
          rw [Heap.useCount_setObj, hE2, hE1]
          rw [Heap.useCount_decr_ne _ (ne_of_gt hrlt)]
          have h2 : (h.alloc o).2 = h.length := rfl
          rw [← h2, Heap.useCount_alloc_self]

/-! ### Invariant preservation by every operation -/

lemma lookupRef_mem {w : World} {id : String} {r : Ref}
    (hl : w.lookupRef id = some r) : (id, r) ∈ w.objects_ := by
  rw [World.lookupRef] at hl
  cases hf : w.objects_.find? (fun p => p.1 == id) with
  | none => rw [hf] at hl; simp at hl
  | some e =>
    rw [hf] at hl
    simp at hl
    have h1 : e.1 = id := by simpa using List.find?_some hf
    have h2 := List.mem_of_find?_eq_some hf
    have h3 : e = (id, r) := by
      cases e
      simp_all
    rw [← h3]
    exact h2

lemma Wf.entry {h : Heap} {w : World} (hwf : Wf h w) {id : String} {r : Ref}
    (hl : w.lookupRef id = some r) :
    (id, r) ∈ w.objects_ ∧
      ∃ o, h.deref r = some o ∧ o.shapes_ ≠ [] ∧ 1 ≤ h.useCount r := by
  have hmem := lookupRef_mem hl
  exact ⟨hmem, hwf.2.2 (id, r) hmem⟩

lemma foldl_addInternal_shapes (l : List (Shape × Pose)) (o : Object) :
    (l.foldl (fun a sp => addToObjectInternal a sp.1 sp.2) o).shapes_ =
      o.shapes_ ++ l.map Prod.fst := by
  induction l generalizing o with
  | nil => simp only [List.foldl_nil, List.map_nil, List.append_nil]
  | cons a rest ih =>
    rw [List.foldl_cons, ih]
    simp [addToObjectInternal]

lemma foldl_addInternal_poses (l : List (Shape × Pose)) (o : Object) :
    (l.foldl (fun a sp => addToObjectInternal a sp.1 sp.2) o).shape_poses_ =
      o.shape_poses_ ++ l.map Prod.snd := by
  induction l generalizing o with
  | nil => simp only [List.foldl_nil, List.map_nil, List.append_nil]
  | cons a rest ih =>
    rw [List.foldl_cons, ih]
    simp [addToObjectInternal]

/-- The invariant is preserved when a fresh object is allocated and
inserted under a key (the create path of both `addToObject` variants). -/
lemma wf_create {h : Heap} {w : World} {id : String} {o : Object}
    (hwf : Wf h w) (ho : o.shapes_ ≠ []) :
    Wf (h.alloc o).1
      { w with objects_ := insertSorted id (h.alloc o).2 w.objects_ } := by
  obtain ⟨hpw, hnd, hent⟩ := hwf
  have hfresh : ∀ e ∈ w.objects_, e.2 ≠ h.length := by
    intro e he
    rcases hent e he with ⟨o1, ho1, _, _⟩
    exact ne_of_lt (Heap.lt_length_of_deref ho1)
  refine ⟨insertSorted_pairwise hpw, ?_, ?_⟩
  · show ((insertSorted id (h.alloc o).2 w.objects_).map Prod.snd).Nodup
    have h2 : (h.alloc o).2 = h.length := rfl
    rw [h2]
    refine nodup_snd_insertSorted hnd ?_
    intro hmem
    rcases List.mem_map.mp hmem with ⟨e, he, hex⟩
    exact hfresh e he hex
  · intro e he
    rcases mem_insertSorted he with h1 | h2
    · subst h1
      refine ⟨o, Heap.deref_alloc_self h o, ho, ?_⟩
      show 1 ≤ (h.alloc o).1.useCount (h.alloc o).2
      rw [Heap.useCount_alloc_self]
    · rcases hent e h2 with ⟨o1, ho1, hs1, hcnt⟩
      have hne : e.2 ≠ h.length := hfresh e h2
      refine ⟨o1, ?_, hs1, ?_⟩
      · rw [Heap.deref_alloc_ne h o hne]; exact ho1
      · rw [Heap.useCount_alloc_ne h o hne]; exact hcnt

lemma wf_addToObject (h : Heap) (w : World) (id : String) (ss : List Shape)
    (ps : List Pose) (hwf : Wf h w) :
    Wf (addToObject h w id ss ps).1 (addToObject h w id ss ps).2.1 := by
  rw [addToObject]
  split_ifs with hlen hemp
  · exact hwf
  · exact hwf
  · cases hl : w.lookupRef id with
    | some r =>
      obtain ⟨hmem, o, ho, hs, hcnt⟩ := hwf.entry hl
      dsimp only
      rw [ensureUnique_deref_self ho]
      refine wf_cow hwf hmem ho ?_
      rw [foldl_addInternal_shapes]
      simp [hs]
    | none =>
      refine wf_create hwf ?_
      rw [foldl_addInternal_shapes]
      have hss : ss ≠ [] := by simpa using hemp
      have hmf : (ss.zip ps).map Prod.fst = ss :=
        List.map_fst_zip ss ps (le_of_eq (by omega))
      rw [hmf]
      simpa using hss

lemma wf_addToObject1 (h : Heap) (w : World) (id : String) (s : Shape)
    (p : Pose) (hwf : Wf h w) :
    Wf (addToObject1 h w id s p).1 (addToObject1 h w id s p).2.1 := by
  rw [addToObject1]
  cases hl : w.lookupRef id with
  | some r =>
    obtain ⟨hmem, o, ho, hs, hcnt⟩ := hwf.entry hl
    dsimp only
    rw [ensureUnique_deref_self ho]
    refine wf_cow hwf hmem ho ?_
    simp [addToObjectInternal]
  | none =>
    refine wf_create hwf ?_
    simp [addToObjectInternal]

lemma wf_moveShapeInObject (h : Heap) (w : World) (id : String) (s : Shape)
    (p : Pose) (hwf : Wf h w) :
    Wf (moveShapeInObject h w id s p).1 (moveShapeInObject h w id s p).2.1 := by
  rw [moveShapeInObject]
  cases hl : w.lookupRef id with
  | none => exact hwf
  | some r =>
    obtain ⟨hmem, o, ho, hs, hcnt⟩ := hwf.entry hl
    dsimp only
    rw [ho]
    dsimp only
    cases hi : o.shapes_.findIdx? (fun x => x == s) with
    | none => exact hwf
    | some i =>
      dsimp only
      rw [ensureUnique_deref_self ho]
      dsimp only
      refine wf_cow hwf hmem ho ?_
      simpa using hs

lemma wf_removeShapeFromObject (h : Heap) (w : World) (id : String) (s : Shape)
    (hwf : Wf h w) :
    Wf (removeShapeFromObject h w id s).1 (removeShapeFromObject h w id s).2.1 := by
  obtain ⟨hpw, hnd, hent⟩ := hwf
  rw [removeShapeFromObject]
  cases hl : w.lookupRef id with
  | none => exact ⟨hpw, hnd, hent⟩
  | some r =>
    obtain ⟨hmem, o, ho, hs, hcnt⟩ := Wf.entry ⟨hpw, hnd, hent⟩ hl
    dsimp only
    rw [ho]
    dsimp only
    cases hi : o.shapes_.findIdx? (fun x => x == s) with
    | none => exact ⟨hpw, hnd, hent⟩
    | some i =>
      dsimp only
      split_ifs with hone
      · refine ⟨List.Pairwise.sublist (eraseKey_sublist id w.objects_) hpw,
          List.Nodup.sublist ((eraseKey_sublist id w.objects_).map Prod.snd) hnd, ?_⟩
        intro e he
        have hel : e ∈ w.objects_ :=
          List.Sublist.mem he (eraseKey_sublist id w.objects_)
        rcases hent e hel with ⟨o1, ho1, hs1, hcnt1⟩
        have hner : e.2 ≠ r := by
          intro her
          have he2 : e = (id, r) := List.inj_on_of_nodup_map hnd hel hmem her
          exact mem_eraseKey_key_ne hpw he (by rw [he2])
        refine ⟨o1, ?_, hs1, ?_⟩
        · rw [Heap.deref_decr]; exact ho1
        · rw [Heap.useCount_decr_ne _ hner]; exact hcnt1
      · rw [ensureUnique_deref_self ho]
        dsimp only
        have hilt : i < o.shapes_.length :=
          (List.findIdx?_eq_some_iff_findIdx_eq.mp hi).1
        refine wf_cow ⟨hpw, hnd, hent⟩ hmem ho ?_
        show (o.shapes_.eraseIdx i) ≠ []
        have hlen2 : (o.shapes_.eraseIdx i).length = o.shapes_.length - 1 := by
          rw [List.length_eraseIdx]
          simp [hilt]
        intro hnil
        rw [hnil] at hlen2
        simp at hlen2
        have : o.shapes_.length = 1 := by omega
        exact hone this

lemma wf_removeObject (h : Heap) (w : World) (id : String) (hwf : Wf h w) :
    Wf (removeObject h w id).1 (removeObject h w id).2.1 := by
  obtain ⟨hpw, hnd, hent⟩ := hwf
  rw [removeObject]
  cases hl : w.lookupRef id with
  | none => exact ⟨hpw, hnd, hent⟩
  | some r =>
    obtain ⟨hmem, o, ho, hs, hcnt⟩ := Wf.entry ⟨hpw, hnd, hent⟩ hl
    refine ⟨List.Pairwise.sublist (eraseKey_sublist id w.objects_) hpw,
      List.Nodup.sublist ((eraseKey_sublist id w.objects_).map Prod.snd) hnd, ?_⟩
    intro e he
    have hel : e ∈ w.objects_ :=
      List.Sublist.mem he (eraseKey_sublist id w.objects_)
    rcases hent e hel with ⟨o1, ho1, hs1, hcnt1⟩
    have hner : e.2 ≠ r := by
      intro her
      have he2 : e = (id, r) := List.inj_on_of_nodup_map hnd hel hmem her
      exact mem_eraseKey_key_ne hpw he (by rw [he2])
    refine ⟨o1, ?_, hs1, ?_⟩
    · rw [Heap.deref_decr]; exact ho1
    · rw [Heap.useCount_decr_ne _ hner]; exact hcnt1

lemma wf_clearObjects (h : Heap) (w : World) (_hwf : Wf h w) :
    Wf (clearObjects h w).1 (clearObjects h w).2.1 := by
  refine ⟨List.Pairwise.nil, List.nodup_nil, ?_⟩
  intro e he
  simp [clearObjects] at he

lemma wf_step (st : Heap × World) (op : Op) (hwf : Wf st.1 st.2) :
    Wf (step st op).1 (step st op).2 := by
  cases op with
  | add id ss ps => exact wf_addToObject st.1 st.2 id ss ps hwf
  | add1 id s p => exact wf_addToObject1 st.1 st.2 id s p hwf
  | move id s p => exact wf_moveShapeInObject st.1 st.2 id s p hwf
  | removeShape id s => exact wf_removeShapeFromObject st.1 st.2 id s hwf
  | remove id => exact wf_removeObject st.1 st.2 id hwf
  | clear => exact wf_clearObjects st.1 st.2 hwf

lemma wf_foldl (ops : List Op) (st : Heap × World) (hwf : Wf st.1 st.2) :
    Wf (ops.foldl step st).1 (ops.foldl step st).2 := by
  induction ops generalizing st with
  | nil => exact hwf
  | cons op rest ih =>
    rw [List.foldl_cons]
    exact ih (step st op) (wf_step st op hwf)

/-- The invariant holds after any sequence of mutating calls from the
empty store. -/
lemma run_wf (ops : List Op) : Wf (run ops).1 (run ops).2 :=
  wf_foldl ops ([], World.empty) wf_empty

/-! ### Claim theorems -/

/-- C6: a batch `addToObject` call whose shape list and pose list have
different lengths is rejected fail-fast: the heap and the store mapping
are left exactly as they were (no object created, no shapes appended, no
truncation) and no observer notification is emitted. -/
theorem addToObject_mismatched_rejected (h : Heap) (w : World) (id : String)
    (shapes : List Shape) (poses : List Pose)
    (hlen : shapes.length ≠ poses.length) :
    addToObject h w id shapes poses = (h, w, []) ∧
      dispatch w.observers_ (addToObject h w id shapes poses).2.2 = [] := by
  have h1 : addToObject h w id shapes poses = (h, w, []) := by
    rw [addToObject]
    simp [hlen]
  exact ⟨h1, by rw [h1]; rfl⟩

theorem addToObject_mismatched_rejected_witness :
    addToObject [] World.empty "A" [1] [] = ([], World.empty, []) ∧
      dispatch World.empty.observers_
        (addToObject [] World.empty "A" [1] []).2.2 = [] :=
  addToObject_mismatched_rejected [] World.empty "A" [1] [] (by decide)

/-- C8: the single-shape `addToObject` variant produces exactly the same
resulting heap, store state and emitted notifications as the batch
variant applied to the singleton lists: both are routed through the same
unchecked `addToObjectInternal` append primitive. -/
theorem addToObject_single_eq_batch (h : Heap) (w : World) (id : String)
    (s : Shape) (p : Pose) :
    addToObject1 h w id s p = addToObject h w id [s] [p] := by
  rw [addToObject, addToObject1]
  norm_num

/-- C7: `notifyObserverAllObjects(token, action)` on a store with N
present objects produces exactly N invocations of the targeted observer,
one per present object, each carrying the given action, and zero
invocations of any other observer; the member is `const`, so the store is
unchanged. -/
theorem notifyObserverAllObjects_once_per_object (w : World)
    (tok : ObsTok) (act : Nat) (_hreg : tok ∈ w.observers_) :
    (notifyObserverAllObjects w tok act).length = getObjectsCount w ∧
    (notifyObserverAllObjects w tok act).map (fun e => e.2.1) = getObjectIds w ∧
    (∀ e ∈ notifyObserverAllObjects w tok act, e.1 = tok ∧ e.2.2 = act) ∧
    ∀ t, t ≠ tok →
      (notifyObserverAllObjects w tok act).filter (fun e => e.1 == t) = [] := by
  refine ⟨?_, ?_, ?_, ?_⟩
  · simp [notifyObserverAllObjects, getObjectsCount]
  · simp [notifyObserverAllObjects, getObjectIds]
  · intro e he
    rcases List.mem_map.mp he with ⟨a, _, hae⟩
    rw [← hae]
    exact ⟨rfl, rfl⟩
  · intro t ht
    rw [List.filter_eq_nil_iff]
    intro e he
    rcases List.mem_map.mp he with ⟨a, _, hae⟩
    rw [← hae]
    simpa using Ne.symm ht

theorem notifyObserverAllObjects_once_per_object_witness :
    (notifyObserverAllObjects ⟨[("A", 0)], [5, 7]⟩ 5 2).length =
      getObjectsCount ⟨[("A", 0)], [5, 7]⟩ ∧
    (notifyObserverAllObjects ⟨[("A", 0)], [5, 7]⟩ 5 2).map (fun e => e.2.1) =
      getObjectIds ⟨[("A", 0)], [5, 7]⟩ ∧
    (∀ e ∈ notifyObserverAllObjects ⟨[("A", 0)], [5, 7]⟩ 5 2,
      e.1 = 5 ∧ e.2.2 = 2) ∧
    ∀ t, t ≠ 5 →
      (notifyObserverAllObjects ⟨[("A", 0)], [5, 7]⟩ 5 2).filter
        (fun e => e.1 == t) = [] :=
  notifyObserverAllObjects_once_per_object ⟨[("A", 0)], [5, 7]⟩ 5 2 (by decide)

/-- C5: `moveShapeInObject` on a nonexistent object, or on an object that
does not contain the given shape identity, returns failure, leaves the
heap and the store mapping unchanged, and triggers zero observer
invocations. -/
theorem moveShapeInObject_notFound_noop (h : Heap) (w : World) (id : String)
    (s : Shape) (p : Pose)
    (hnf : (getObject h w id).all (fun o => !(o.shapes_.contains s)) = true) :
    moveShapeInObject h w id s p = (h, w, false, []) ∧
      dispatch w.observers_ (moveShapeInObject h w id s p).2.2.2 = [] := by
  have hmain : moveShapeInObject h w id s p = (h, w, false, []) := by
    rw [moveShapeInObject]
    cases hl : w.lookupRef id with
    | none => rfl
    | some r =>
      dsimp only
      cases ho : h.deref r with
      | none => rfl
      | some o =>
        dsimp only
        have hgo : getObject h w id = some o := by
          rw [getObject, hl]
          exact ho
        rw [hgo] at hnf
        have hs : s ∉ o.shapes_ := by
          simp [Option.all] at hnf
          simpa using hnf
        have hfi : o.shapes_.findIdx? (fun x => x == s) = none := by
          rw [List.findIdx?_eq_none_iff]
          intro x hx
          simp only [beq_eq_false_iff_ne, ne_eq]
          intro hxs
          exact hs (hxs ▸ hx)
        rw [hfi]
  exact ⟨hmain, by rw [hmain]; rfl⟩

theorem moveShapeInObject_notFound_noop_witness :
    moveShapeInObject [⟨⟨"A", [1], [10]⟩, 1⟩] ⟨[("A", 0)], [4]⟩ "A" 9 99 =
      ([⟨⟨"A", [1], [10]⟩, 1⟩], ⟨[("A", 0)], [4]⟩, false, []) ∧
    dispatch (World.observers_ ⟨[("A", 0)], [4]⟩)
      (moveShapeInObject [⟨⟨"A", [1], [10]⟩, 1⟩]
        ⟨[("A", 0)], [4]⟩ "A" 9 99).2.2.2 = [] :=
  moveShapeInObject_notFound_noop [⟨⟨"A", [1], [10]⟩, 1⟩] ⟨[("A", 0)], [4]⟩
    "A" 9 99 (by rfl)

/-- C3: `addToObject` on an absent id creates the object and notifies with
an ActionSet that is CREATE alone; on a present id it appends and notifies
with ADD_SHAPE alone — for the batch variant (under its length
precondition, with a non-empty batch) and for the single-shape variant
alike. -/
theorem addToObject_action_bits (h : Heap) (w : World) (id : String)
    (shapes : List Shape) (poses : List Pose) (s : Shape) (p : Pose)
    (hwf : Wf h w) (hlen : shapes.length = poses.length) (hne : shapes ≠ []) :
    (hasObject w id = false →
      (addToObject h w id shapes poses).2.2 = [(id, CREATE)] ∧
      (addToObject1 h w id s p).2.2 = [(id, CREATE)]) ∧
    (hasObject w id = true →
      (addToObject h w id shapes poses).2.2 = [(id, ADD_SHAPE)] ∧
      (addToObject1 h w id s p).2.2 = [(id, ADD_SHAPE)]) := by
  cases hl : w.lookupRef id with
  | none =>
    refine ⟨fun _ => ⟨?_, ?_⟩, fun htrue => ?_⟩
    · rw [addToObject]
      split_ifs with h1 h2
      · exact absurd hlen h1
      · exact absurd (by simpa using h2) hne
      · rw [hl]
    · rw [addToObject1, hl]
    · rw [hasObject, hl] at htrue
      simp at htrue
  | some r =>
    obtain ⟨hmem, o, ho, hs, hcnt⟩ := hwf.entry hl
    refine ⟨fun hfalse => ?_, fun _ => ⟨?_, ?_⟩⟩
    · rw [hasObject, hl] at hfalse
      simp at hfalse
    · rw [addToObject]
      split_ifs with h1 h2
      · exact absurd hlen h1
      · exact absurd (by simpa using h2) hne
      · rw [hl]
        dsimp only
        rw [ensureUnique_deref_self ho]
    · rw [addToObject1, hl]
      dsimp only
      rw [ensureUnique_deref_self ho]

theorem addToObject_action_bits_witness :
    (hasObject (run [Op.add1 "A" 1 10]).2 "A" = false →
      (addToObject (run [Op.add1 "A" 1 10]).1 (run [Op.add1 "A" 1 10]).2
        "A" [2] [20]).2.2 = [("A", CREATE)] ∧
      (addToObject1 (run [Op.add1 "A" 1 10]).1 (run [Op.add1 "A" 1 10]).2
        "A" 2 20).2.2 = [("A", CREATE)]) ∧
    (hasObject (run [Op.add1 "A" 1 10]).2 "A" = true →
      (addToObject (run [Op.add1 "A" 1 10]).1 (run [Op.add1 "A" 1 10]).2
        "A" [2] [20]).2.2 = [("A", ADD_SHAPE)] ∧
      (addToObject1 (run [Op.add1 "A" 1 10]).1 (run [Op.add1 "A" 1 10]).2
        "A" 2 20).2.2 = [("A", ADD_SHAPE)]) :=
  addToObject_action_bits (run [Op.add1 "A" 1 10]).1 (run [Op.add1 "A" 1 10]).2
    "A" [2] [20] 2 20 (run_wf [Op.add1 "A" 1 10]) (by decide) (by decide)

/-- C9: `clearObjects` on a store with K present objects emits exactly K
DESTROY notifications, one per distinct removed object (never a single
bulk event), and leaves the object count at zero. -/
theorem clearObjects_destroy_per_object (h : Heap) (w : World) (hwf : Wf h w) :
    (clearObjects h w).2.2.length = getObjectsCount w ∧
    (∀ n ∈ (clearObjects h w).2.2, n.2 = DESTROY) ∧
    ((clearObjects h w).2.2.map Prod.fst).Nodup ∧
    (clearObjects h w).2.2.map Prod.fst = getObjectIds w ∧
    getObjectsCount (clearObjects h w).2.1 = 0 := by
  refine ⟨?_, ?_, ?_, ?_, rfl⟩
  · simp [clearObjects, getObjectsCount]
  · intro n hn
    rcases List.mem_map.mp hn with ⟨e, _, hee⟩
    rw [← hee]
  · have h1 : (clearObjects h w).2.2.map Prod.fst = w.objects_.map Prod.fst := by
      simp [clearObjects]
    rw [h1]
    have h2 := List.Pairwise.map Prod.fst (fun a b hab => hab) hwf.1
    exact List.Pairwise.imp ne_of_lt h2
  · simp [clearObjects, getObjectIds]

theorem clearObjects_destroy_per_object_witness :
    (clearObjects (run [Op.add1 "A" 1 10, Op.add1 "B" 2 20]).1
      (run [Op.add1 "A" 1 10, Op.add1 "B" 2 20]).2).2.2.length =
      getObjectsCount (run [Op.add1 "A" 1 10, Op.add1 "B" 2 20]).2 ∧
    (∀ n ∈ (clearObjects (run [Op.add1 "A" 1 10, Op.add1 "B" 2 20]).1
      (run [Op.add1 "A" 1 10, Op.add1 "B" 2 20]).2).2.2, n.2 = DESTROY) ∧
    ((clearObjects (run [Op.add1 "A" 1 10, Op.add1 "B" 2 20]).1
      (run [Op.add1 "A" 1 10, Op.add1 "B" 2 20]).2).2.2.map Prod.fst).Nodup ∧
    (clearObjects (run [Op.add1 "A" 1 10, Op.add1 "B" 2 20]).1
      (run [Op.add1 "A" 1 10, Op.add1 "B" 2 20]).2).2.2.map Prod.fst =
      getObjectIds (run [Op.add1 "A" 1 10, Op.add1 "B" 2 20]).2 ∧
    getObjectsCount (clearObjects (run [Op.add1 "A" 1 10, Op.add1 "B" 2 20]).1
      (run [Op.add1 "A" 1 10, Op.add1 "B" 2 20]).2).2.1 = 0 :=
  clearObjects_destroy_per_object (run [Op.add1 "A" 1 10, Op.add1 "B" 2 20]).1
    (run [Op.add1 "A" 1 10, Op.add1 "B" 2 20]).2
    (run_wf [Op.add1 "A" 1 10, Op.add1 "B" 2 20])

/-- C4: after any sequence of mutating calls starting from the empty
store, every id present in the mapping refers to a record with a
non-empty shape sequence, and `getObjectIds()` returns exactly the ids
whose shape list is non-empty. -/
theorem run_nonEmpty_invariant (ops : List Op) :
    (∀ e ∈ (run ops).2.objects_,
      ∃ o, (run ops).1.deref e.2 = some o ∧ o.shapes_ ≠ []) ∧
    ∀ id, id ∈ getObjectIds (run ops).2 ↔
      ∃ o, getObject (run ops).1 (run ops).2 id = some o ∧ o.shapes_ ≠ [] := by
  obtain ⟨hpw, hnd, hent⟩ := run_wf ops
  constructor
  · intro e he
    rcases hent e he with ⟨o, ho, hs, _⟩
    exact ⟨o, ho, hs⟩
  · intro id
    constructor
    · intro hid
      rcases List.mem_map.mp hid with ⟨e, he, hex⟩
      have hfind := find?_key_of_mem hpw he
      rcases hent e he with ⟨o, ho, hs, _⟩
      refine ⟨o, ?_, hs⟩
      rw [getObject, World.lookupRef, ← hex, hfind]
      simpa using ho
    · rintro ⟨o, hgo, hs⟩
      cases hl : (run ops).2.lookupRef id with
      | none =>
        rw [getObject, hl] at hgo
        simp at hgo
      | some r =>
        have hmem := lookupRef_mem hl
        exact List.mem_map.mpr ⟨(id, r), hmem, rfl⟩

/-- C10: after any sequence of mutating calls from the empty store,
`getObjectIds()` returns the present ids in strictly ascending
lexicographic string order, and `getObjects()` iterates the mapping in
exactly that order (the ids are the keys of `getObjects()` in iteration
order), because `objects_` is an ordered `std::map` keyed by the id. -/
theorem run_getObjectIds_sorted (ops : List Op) :
    List.Pairwise (fun a b : String => a < b) (getObjectIds (run ops).2) ∧
    getObjectIds (run ops).2 = (getObjects (run ops).2).map Prod.fst := by
  refine ⟨?_, rfl⟩
  exact List.Pairwise.map Prod.fst (fun a b hab => hab) (run_wf ops).1

/-- C2: `removeShapeFromObject` with a matching object and shape identity
removes that one (shape, pose) pair and succeeds; if the removed shape was
the object's last one, the whole entry is deleted and exactly one
notification carrying DESTROY alone is emitted (never REMOVE_SHAPE);
otherwise exactly one REMOVE_SHAPE notification is emitted; when the
object or the shape identity is not found the call returns failure with no
change and no notification. -/
theorem removeShapeFromObject_spec (h : Heap) (w : World) (id : String)
    (s : Shape) (hwf : Wf h w) :
    (∀ o, getObject h w id = some o → s ∈ o.shapes_ →
      (removeShapeFromObject h w id s).2.2.1 = true ∧
      (o.shapes_.length = 1 →
        hasObject (removeShapeFromObject h w id s).2.1 id = false ∧
        (removeShapeFromObject h w id s).2.2.2 = [(id, DESTROY)]) ∧
      (o.shapes_.length ≠ 1 →
        getObject (removeShapeFromObject h w id s).1
            (removeShapeFromObject h w id s).2.1 id =
          some { o with
            shapes_ := o.shapes_.eraseIdx (o.shapes_.findIdx (fun x => x == s)),
            shape_poses_ :=
              o.shape_poses_.eraseIdx (o.shapes_.findIdx (fun x => x == s)) } ∧
        (removeShapeFromObject h w id s).2.2.2 = [(id, REMOVE_SHAPE)])) ∧
    ((getObject h w id).all (fun o => !(o.shapes_.contains s)) = true →
      removeShapeFromObject h w id s = (h, w, false, [])) := by
  obtain ⟨hpw, hnd, hent⟩ := hwf
  constructor
  · intro o hgo hsin
    cases hl : w.lookupRef id with
    | none => rw [getObject, hl] at hgo; simp at hgo
    | some r =>
      have ho : h.deref r = some o := by
        rw [getObject, hl] at hgo
        simpa using hgo
      have hmem : (id, r) ∈ w.objects_ := lookupRef_mem hl
      have hfi : o.shapes_.findIdx? (fun x => x == s) =
          some (o.shapes_.findIdx (fun x => x == s)) :=
        List.findIdx?_eq_some_of_exists ⟨s, hsin, by simp⟩
      by_cases hone : o.shapes_.length = 1
      · have hres : removeShapeFromObject h w id s =
            (h.decr r, { w with objects_ := eraseKey id w.objects_ }, true,
              [(id, DESTROY)]) := by
          rw [removeShapeFromObject, hl]
          dsimp only
          rw [ho]
          dsimp only
          rw [hfi]
          dsimp only
          rw [if_pos hone]
        rw [hres]
        refine ⟨rfl, fun _ => ⟨?_, rfl⟩, fun hno => absurd hone hno⟩
        rw [hasObject, World.lookupRef]
        dsimp only
        rw [find?_eraseKey_self hpw]
        rfl
      · have hEd : (ensureUnique h r).1.deref (ensureUnique h r).2 = some o :=
          ensureUnique_deref_self ho
        have hElt : (ensureUnique h r).2 < (ensureUnique h r).1.length :=
          Heap.lt_length_of_deref hEd
        have hres : removeShapeFromObject h w id s =
            ((ensureUnique h r).1.setObj (ensureUnique h r).2
              { o with
                shapes_ :=
                  o.shapes_.eraseIdx (o.shapes_.findIdx (fun x => x == s)),
                shape_poses_ :=
                  o.shape_poses_.eraseIdx (o.shapes_.findIdx (fun x => x == s)) },
              { w with objects_ := updateRef id (ensureUnique h r).2 w.objects_ },
              true, [(id, REMOVE_SHAPE)]) := by
          rw [removeShapeFromObject, hl]
          dsimp only
          rw [ho]
          dsimp only
          rw [hfi]
          dsimp only
          rw [if_neg hone]
          rw [hEd]
        rw [hres]
        refine ⟨rfl, fun h1 => absurd h1 hone, fun _ => ⟨?_, rfl⟩⟩
        rw [getObject, World.lookupRef]
        dsimp only
        rw [find?_updateRef_self _ (List.mem_map.mpr ⟨(id, r), hmem, rfl⟩)]
        dsimp only
        exact Heap.deref_setObj_self _ hElt
  · intro hnf
    rw [removeShapeFromObject]
    cases hl : w.lookupRef id with
    | none => rfl
    | some r =>
      dsimp only
      cases ho : h.deref r with
      | none => rfl
      | some o =>
        dsimp only
        have hgo : getObject h w id = some o := by
          rw [getObject, hl]; exact ho
        rw [hgo] at hnf
        have hs : s ∉ o.shapes_ := by
          simp [Option.all] at hnf
          simpa using hnf
        have hfi : o.shapes_.findIdx? (fun x => x == s) = none := by
          rw [List.findIdx?_eq_none_iff]
          intro x hx
          simp only [beq_eq_false_iff_ne, ne_eq]
          intro hxs
          exact hs (hxs ▸ hx)
        rw [hfi]

theorem removeShapeFromObject_spec_witness :
    (∀ o, getObject (run [Op.add1 "A" 1 10, Op.add1 "A" 2 20]).1
        (run [Op.add1 "A" 1 10, Op.add1 "A" 2 20]).2 "A" = some o →
      (1 : Shape) ∈ o.shapes_ →
      (removeShapeFromObject (run [Op.add1 "A" 1 10, Op.add1 "A" 2 20]).1
        (run [Op.add1 "A" 1 10, Op.add1 "A" 2 20]).2 "A" 1).2.2.1 = true ∧
      (o.shapes_.length = 1 →
        hasObject (removeShapeFromObject (run [Op.add1 "A" 1 10, Op.add1 "A" 2 20]).1
          (run [Op.add1 "A" 1 10, Op.add1 "A" 2 20]).2 "A" 1).2.1 "A" = false ∧
        (removeShapeFromObject (run [Op.add1 "A" 1 10, Op.add1 "A" 2 20]).1
          (run [Op.add1 "A" 1 10, Op.add1 "A" 2 20]).2 "A" 1).2.2.2 =
          [("A", DESTROY)]) ∧
      (o.shapes_.length ≠ 1 →
        getObject (removeShapeFromObject (run [Op.add1 "A" 1 10, Op.add1 "A" 2 20]).1
            (run [Op.add1 "A" 1 10, Op.add1 "A" 2 20]).2 "A" 1).1
          (removeShapeFromObject (run [Op.add1 "A" 1 10, Op.add1 "A" 2 20]).1
            (run [Op.add1 "A" 1 10, Op.add1 "A" 2 20]).2 "A" 1).2.1 "A" =
          some { o with
            shapes_ := o.shapes_.eraseIdx (o.shapes_.findIdx (fun x => x == 1)),
            shape_poses_ :=
              o.shape_poses_.eraseIdx (o.shapes_.findIdx (fun x => x == 1)) } ∧
        (removeShapeFromObject (run [Op.add1 "A" 1 10, Op.add1 "A" 2 20]).1
          (run [Op.add1 "A" 1 10, Op.add1 "A" 2 20]).2 "A" 1).2.2.2 =
          [("A", REMOVE_SHAPE)])) ∧
    ((getObject (run [Op.add1 "A" 1 10, Op.add1 "A" 2 20]).1
        (run [Op.add1 "A" 1 10, Op.add1 "A" 2 20]).2 "A").all
        (fun o => !(o.shapes_.contains 1)) = true →
      removeShapeFromObject (run [Op.add1 "A" 1 10, Op.add1 "A" 2 20]).1
        (run [Op.add1 "A" 1 10, Op.add1 "A" 2 20]).2 "A" 1 =
        ((run [Op.add1 "A" 1 10, Op.add1 "A" 2 20]).1,
          (run [Op.add1 "A" 1 10, Op.add1 "A" 2 20]).2, false, [])) :=
  removeShapeFromObject_spec (run [Op.add1 "A" 1 10, Op.add1 "A" 2 20]).1
    (run [Op.add1 "A" 1 10, Op.add1 "A" 2 20]).2 "A" 1
    (run_wf [Op.add1 "A" 1 10, Op.add1 "A" 2 20])

/-- C1: copy-on-write isolation.  Starting from a well-formed store that
holds object `id`, construct a copy and then add shape `s2` to `id` in
the copy: the original store's view of every object — including its
record for `id` — is exactly what it was before, the copy's record for
`id` holds the old shapes followed by `s2` (and the old poses followed by
`p2`), and every other object of the copy is unchanged. -/
theorem copy_isolation (h : Heap) (w1 : World) (id : String) (s2 : Shape)
    (p2 : Pose) (o : Object) (hwf : Wf h w1)
    (ho : getObject h w1 id = some o) :
    (∀ id', getObject
        (addToObject1 (World.copy h w1).1 (World.copy h w1).2 id s2 p2).1
        w1 id' = getObject h w1 id') ∧
    getObject (addToObject1 (World.copy h w1).1 (World.copy h w1).2 id s2 p2).1
        (addToObject1 (World.copy h w1).1 (World.copy h w1).2 id s2 p2).2.1 id =
      some { o with
        shapes_ := o.shapes_ ++ [s2]
        shape_poses_ := o.shape_poses_ ++ [p2] } ∧
    ∀ id', id' ≠ id →
      getObject
          (addToObject1 (World.copy h w1).1 (World.copy h w1).2 id s2 p2).1
          (addToObject1 (World.copy h w1).1 (World.copy h w1).2 id s2 p2).2.1
          id' =
        getObject h w1 id' := by
  obtain ⟨hpw, hnd, hent⟩ := hwf
  cases hl : w1.lookupRef id with
  | none => rw [getObject, hl] at ho; simp at ho
  | some r =>
    have hor : h.deref r = some o := by
      rw [getObject, hl] at ho
      simpa using ho
    have hmem : (id, r) ∈ w1.objects_ := lookupRef_mem hl
    obtain ⟨o0, _, _, hcnt0⟩ := hent (id, r) hmem
    have hrlt : r < h.length := Heap.lt_length_of_deref hor
    have hd2 : ∀ x, (World.copy h w1).1.deref x = h.deref x := fun x =>
      Heap.deref_incrAll h (w1.objects_.map Prod.snd) x
    have hlen2 : (World.copy h w1).1.length = h.length :=
      Heap.length_incrAll h (w1.objects_.map Prod.snd)
    have hrmem : r ∈ w1.objects_.map Prod.snd :=
      List.mem_map.mpr ⟨(id, r), hmem, rfl⟩
    have hcnt2 : (World.copy h w1).1.useCount r = h.useCount r + 1 :=
      Heap.useCount_incrAll_mem h hrmem hnd hrlt
    have hcnt0r : 1 ≤ h.useCount r := hcnt0
    have hgt : 1 < (World.copy h w1).1.useCount r := by omega
    have ho2 : (World.copy h w1).1.deref r = some o := by
      rw [hd2]
      exact hor
    rcases ensureUnique_cases ho2 with ⟨hcn, _⟩ | ⟨_, hE2, hE1⟩
    · exact absurd hgt hcn
    · have hl2 : (World.copy h w1).2.lookupRef id = some r := hl
      have hres : addToObject1 (World.copy h w1).1 (World.copy h w1).2 id s2 p2 =
          ((ensureUnique (World.copy h w1).1 r).1.setObj
              (ensureUnique (World.copy h w1).1 r).2
              (addToObjectInternal o s2 p2),
            { (World.copy h w1).2 with
              objects_ := updateRef id (ensureUnique (World.copy h w1).1 r).2
                (World.copy h w1).2.objects_ },
            [(id, ADD_SHAPE)]) := by
        rw [addToObject1, hl2]
        dsimp only
        rw [ensureUnique_deref_self ho2]
      have hEd : (ensureUnique (World.copy h w1).1 r).1.deref
          (ensureUnique (World.copy h w1).1 r).2 = some o :=
        ensureUnique_deref_self ho2
      have hE2h : (ensureUnique (World.copy h w1).1 r).2 = h.length := by
        rw [hE2, hlen2]
      have hderef_old : ∀ x, x < h.length →
          ((ensureUnique (World.copy h w1).1 r).1.setObj
            (ensureUnique (World.copy h w1).1 r).2
            (addToObjectInternal o s2 p2)).deref x = h.deref x := by
        intro x hx
        have hxne : x ≠ (ensureUnique (World.copy h w1).1 r).2 := by
          rw [hE2h]
          exact ne_of_lt hx
        rw [Heap.deref_setObj_ne _ hxne, hE1, Heap.deref_decr]
        rw [Heap.deref_alloc_ne _ _ (by rw [hlen2]; exact ne_of_lt hx)]
        exact hd2 x
      refine ⟨?_, ?_, ?_⟩
      · intro id'
        rw [hres]
        simp only [getObject]
        cases hli : w1.lookupRef id' with
        | none => rfl
        | some r'' =>
          have hmem'' := lookupRef_mem hli
          obtain ⟨o'', ho'', _, _⟩ := hent (id', r'') hmem''
          have hlt'' : r'' < h.length := Heap.lt_length_of_deref ho''
          show ((ensureUnique (World.copy h w1).1 r).1.setObj
              (ensureUnique (World.copy h w1).1 r).2
              (addToObjectInternal o s2 p2)).deref r'' = h.deref r''
          exact hderef_old r'' hlt''
      · rw [hres]
        simp only [getObject, World.lookupRef, World.copy]
        rw [find?_updateRef_self _
          (show id ∈ w1.objects_.map Prod.fst from
            List.mem_map.mpr ⟨(id, r), hmem, rfl⟩)]
        have hlt : (ensureUnique (World.copy h w1).1 r).2 <
            (ensureUnique (World.copy h w1).1 r).1.length :=
          Heap.lt_length_of_deref hEd
        exact Heap.deref_setObj_self _ hlt
      · intro id' hne'
        rw [hres]
        simp only [getObject, World.lookupRef, World.copy]
        rw [find?_updateRef_ne _ _ hne']
        cases hli : w1.objects_.find? (fun p => p.1 == id') with
        | none => rfl
        | some e =>
          have hmem'' := List.mem_of_find?_eq_some hli
          obtain ⟨o'', ho'', _, _⟩ := hent e hmem''
          have hlt'' : e.2 < h.length := Heap.lt_length_of_deref ho''
          show ((ensureUnique (World.copy h w1).1 r).1.setObj
              (ensureUnique (World.copy h w1).1 r).2
              (addToObjectInternal o s2 p2)).deref e.2 = h.deref e.2
          exact hderef_old e.2 hlt''

theorem copy_isolation_witness :
    (∀ id', getObject
        (addToObject1 (World.copy (run [Op.add1 "A" 7 70]).1
            (run [Op.add1 "A" 7 70]).2).1
          (World.copy (run [Op.add1 "A" 7 70]).1 (run [Op.add1 "A" 7 70]).2).2
          "A" 9 99).1
        (run [Op.add1 "A" 7 70]).2 id' =
      getObject (run [Op.add1 "A" 7 70]).1 (run [Op.add1 "A" 7 70]).2 id') ∧
    getObject (addToObject1 (World.copy (run [Op.add1 "A" 7 70]).1
          (run [Op.add1 "A" 7 70]).2).1
        (World.copy (run [Op.add1 "A" 7 70]).1 (run [Op.add1 "A" 7 70]).2).2
        "A" 9 99).1
      (addToObject1 (World.copy (run [Op.add1 "A" 7 70]).1
          (run [Op.add1 "A" 7 70]).2).1
        (World.copy (run [Op.add1 "A" 7 70]).1 (run [Op.add1 "A" 7 70]).2).2
        "A" 9 99).2.1 "A" =
      some { Object.mk "A" [7] [70] with
        shapes_ := (Object.mk "A" [7] [70]).shapes_ ++ [9]
        shape_poses_ := (Object.mk "A" [7] [70]).shape_poses_ ++ [99] } ∧
    ∀ id', id' ≠ "A" →
      getObject (addToObject1 (World.copy (run [Op.add1 "A" 7 70]).1
            (run [Op.add1 "A" 7 70]).2).1
          (World.copy (run [Op.add1 "A" 7 70]).1 (run [Op.add1 "A" 7 70]).2).2
          "A" 9 99).1
        (addToObject1 (World.copy (run [Op.add1 "A" 7 70]).1
            (run [Op.add1 "A" 7 70]).2).1
          (World.copy (run [Op.add1 "A" 7 70]).1 (run [Op.add1 "A" 7 70]).2).2
          "A" 9 99).2.1 id' =
        getObject (run [Op.add1 "A" 7 70]).1 (run [Op.add1 "A" 7 70]).2 id' :=
  copy_isolation (run [Op.add1 "A" 7 70]).1 (run [Op.add1 "A" 7 70]).2
    "A" 9 99 (Object.mk "A" [7] [70]) (run_wf [Op.add1 "A" 7 70]) (by rfl)

end CollisionDetection
